import Mathlib

/-!
Verification of the fragment bundler `implode.py`.

The program reads a directory of markdown fragment files, orders them
(canonical section order first, the rest sorted), strips an optional YAML
frontmatter block and an optional embedded `## Title` header from each
fragment, and concatenates the results into one output file, re-adding a
derived `## Title` line for every fragment except the designated "general"
one.

The embedding below follows the Python source function by function.
Strings are modelled by Lean `String`; the helper functions reimplement the
exact Python primitives used by the source (`str.splitlines` on
newline-separated text, `str.strip`, `str.lstrip`, `'\n'.join`,
`str.startswith`, `dict` insertion/lookup/deletion with insertion order,
stable `sorted`).
-/

/-- Python whitespace characters recognised by `str.strip` (the ones that can
occur in this program's text data). -/
def isPySpace (c : Char) : Bool :=
  c = ' ' || c = '\t' || c = '\n' || c = '\r' || c = '\x0b' || c = '\x0c'

/-- Python `str.strip()`: drop leading and trailing whitespace. -/
def pyStrip (s : String) : String :=
  String.mk (((s.data.dropWhile isPySpace).reverse.dropWhile isPySpace).reverse)

/-- Python `str.lstrip('\n')`: drop leading newline characters only. -/
def lstripNL (s : String) : String :=
  String.mk (s.data.dropWhile (fun c => c = '\n'))

/-- Python `str.startswith(pre)`. -/
def pyStartsWith (s pre : String) : Bool :=
  pre.data.isPrefixOf s.data

/-- Helper for `splitlines`: walk the character list accumulating the current
line (in reverse). -/
def splitlinesAux : List Char → List Char → List String
  | [], acc => if acc = [] then [] else [String.mk acc.reverse]
  | c :: cs, acc =>
    if c = '\n' then String.mk acc.reverse :: splitlinesAux cs []
    else splitlinesAux cs (c :: acc)

/-- Python `str.splitlines()` on newline-separated text: split at each
newline, with no trailing empty entry for a trailing newline. -/
def splitlines (s : String) : List String :=
  splitlinesAux s.data []

/-- Python `'\n'.join(lines)`. -/
def joinLines : List String → String
  | [] => ""
  | [l] => l
  | l :: ls => l ++ "\n" ++ joinLines ls

/-- Python line predicate `not line.strip()`: the line is blank. -/
def isBlank (l : String) : Bool := pyStrip l = ""

/-- Source `strip_yaml_frontmatter`, scanning loop: find the first line whose
stripped form is the closing marker and return the lines after it. -/
def dropThroughClose : List String → Option (List String)
  | [] => none
  | x :: xs => if pyStrip x = "---" then some xs else dropThroughClose xs

/-- Source `strip_yaml_frontmatter(text)`: if the first line strips to `---`,
discard everything through the next line stripping to `---` and remove
leading newlines from the remainder; otherwise (no opening marker, or no
closing marker) return the text unchanged. -/
def strip_yaml_frontmatter (text : String) : String :=
  match splitlines text with
  | [] => text
  | l :: rest =>
    if pyStrip l = "---" then
      match dropThroughClose rest with
      | some tail => lstripNL (joinLines tail)
      | none => text
    else text

/-- Source `strip_header(text)`: if the first line starts with `## `, drop it
together with the immediately following blank lines; otherwise return the
text unchanged. -/
def strip_header (text : String) : String :=
  match splitlines text with
  | [] => text
  | l :: rest =>
    if pyStartsWith l "## " then joinLines (rest.dropWhile isBlank)
    else text

/-- One fragment file: a `pathlib.Path` (its `stem` plus its final `suffix`,
so that `path.name = stem ++ suffix`) together with the text the bundler
reads from it. -/
structure Fragment where
  stem : String
  suffix : String
  content : String
deriving DecidableEq

/-- Python `path.name`, the filename the source sorts remaining files by. -/
def Fragment.fname (f : Fragment) : String := f.stem ++ f.suffix

/-- Lexicographic comparison of character lists by code point, Python's
ordering on `str`. -/
def lexLe : List Char → List Char → Bool
  | [], _ => true
  | _ :: _, [] => false
  | a :: as, b :: bs =>
    if a.toNat < b.toNat then true
    else if b.toNat < a.toNat then false
    else lexLe as bs

/-- Python string `<=`. -/
def strLe (a b : String) : Bool := lexLe a.data b.data

/-- Sort key relation used by `sorted(file_dict.values(), key=lambda p: p.name)`. -/
def fragLe (a b : Fragment) : Prop := strLe a.fname b.fname = true

instance : DecidableRel fragLe :=
  fun a b => inferInstanceAs (Decidable (strLe a.fname b.fname = true))

/-- Modelled from the spec: `header_to_filename` lives in `constants.py`,
which is absent from the sources; the spec describes it as the direction of
"a reversible transform between human-readable title case with spaces and
dash-separated lowercase form" that maps a canonical section title to its
expected filename stem. -/
def header_to_filename (h : String) : String :=
  String.mk ((h.data.map Char.toLower).map (fun c => if c = ' ' then '-' else c))

/-- Helper for `filename_to_header`: uppercase the first letter and every
letter following a dash, turning each dash into a space. -/
def titleAux : List Char → Bool → List Char
  | [], _ => []
  | c :: cs, atStart =>
    if c = '-' then ' ' :: titleAux cs true
    else (if atStart then c.toUpper else c) :: titleAux cs false

/-- Modelled from the spec: `filename_to_header` lives in `constants.py`,
which is absent from the sources; it is the inverse direction of the same
reversible transform, mapping a dash-separated lowercase stem to its
title-case header with spaces ("Convert dash-separated names to title case
with spaces"). -/
def filename_to_header (f : String) : String :=
  String.mk (titleAux f.data true)

/-- Python `dict` from stems to fragments, as an insertion-ordered
association list. -/
abbrev Dict : Type := List (String × Fragment)

/-- Python `dict` assignment: overwrite in place when the key exists,
append otherwise. -/
def dictInsert (d : Dict) (k : String) (v : Fragment) : Dict :=
  if (List.any d (fun e => e.1 = k)) then
    List.map (fun e => if e.1 = k then (k, v) else e) d
  else d ++ [(k, v)]

/-- Python `d[k]` guarded by `k in d`. -/
def dictGet : Dict → String → Option Fragment
  | [], _ => none
  | e :: d, k => if e.1 = k then some e.2 else dictGet d k

/-- Python `del d[k]`. -/
def dictErase : Dict → String → Dict
  | [], _ => []
  | e :: d, k => if e.1 = k then dictErase d k else e :: dictErase d k

/-- Source line `file_dict = {f.stem: f for f in file_list}`. -/
def buildDict (fs : List Fragment) : Dict :=
  fs.foldl (fun d f => dictInsert d f.stem f) []

/-- Source loop in `get_ordered_files`: walk the canonical section names in
order, moving each matched fragment out of the dictionary and into the
ordered output. -/
def addMatched : List String → Dict → List Fragment × Dict
  | [], d => ([], d)
  | k :: ks, d =>
    match dictGet d (header_to_filename k) with
    | some f =>
      let p := addMatched ks (dictErase d (header_to_filename k))
      (f :: p.1, p.2)
    | none => addMatched ks d

/-- Source `get_ordered_files(file_list, section_globs_keys)`: fragments
matched by the canonical section order first, then the remaining dictionary
values sorted by filename. -/
def get_ordered_files (file_list : List Fragment) (keys : List String) : List Fragment :=
  let p := addMatched keys (buildDict file_list)
  p.1 ++ List.insertionSort fragLe (List.map Prod.snd p.2)

/-- Body of the write loop of `bundle_cursor_rules` for one fragment: skip
it when the trimmed content is empty, otherwise strip frontmatter and
header and emit the derived `## Title` line (except for "general") followed
by the body and a blank-line separator. -/
def cursorEntry (f : Fragment) : String :=
  let content := pyStrip f.content
  if content = "" then ""
  else
    (if f.stem = "general" then "" else "## " ++ filename_to_header f.stem ++ "\n\n")
      ++ strip_header (strip_yaml_frontmatter content) ++ "\n\n"

/-- Concatenation of the sequential writes to the output file. -/
def concatAll : List String → String
  | [] => ""
  | s :: ss => s ++ concatAll ss

/-- Source `bundle_cursor_rules(rules_dir, output_file)`, with the directory
listing given as a list of fragments and the keys of the `SECTION_GLOBS`
constant (from the absent `constants.py`) as a parameter. The produced
string is the content of the output file. -/
def bundle_cursor_rules (rule_files : List Fragment) (keys : List String) : String :=
  let general := rule_files.filter (fun f => f.stem = "general")
  let others := rule_files.filter (fun f => ¬ (f.stem = "general"))
  concatAll ((general ++ get_ordered_files others keys).map cursorEntry)

/-- Replacement of every non-overlapping occurrence of `pat` (left to
right) by `rep`, over character lists, with a fuel argument that makes the
recursion structural; the fuel is always instantiated with the length of
the scanned list, which suffices because each step consumes at least one
character. -/
def replaceFuel (pat rep : List Char) : Nat → List Char → List Char
  | _, [] => []
  | 0, s => s
  | fuel + 1, c :: cs =>
    if pat.isPrefixOf (c :: cs) then
      rep ++ replaceFuel pat rep fuel (cs.drop (pat.length - 1))
    else c :: replaceFuel pat rep fuel cs

/-- Python `s.replace(pat, rep)` for a non-empty pattern (the source only
calls it with the pattern `".instructions"`). -/
def pyReplace (s pat rep : String) : String :=
  if pat.data = [] then s
  else String.mk (replaceFuel pat.data rep.data s.data.length s.data)

/-- Body of the write loop of `bundle_github_instructions` for one
instruction fragment: like the cursor one, but the `## Title` line is always
written and the stem has its `.instructions` part removed first. -/
def githubEntry (f : Fragment) : String :=
  let content := pyStrip f.content
  if content = "" then ""
  else
    "## " ++ filename_to_header (pyReplace f.stem ".instructions" "") ++ "\n\n"
      ++ strip_header (strip_yaml_frontmatter content) ++ "\n\n"

/-- Source `bundle_github_instructions(instructions_dir, output_file)`: the
optional fixed-path general file is written first, trimmed but otherwise
untransformed, followed by the ordered instruction fragments. -/
def bundle_github_instructions (copilot_general : Option String)
    (instr_files : List Fragment) (keys : List String) : String :=
  (match copilot_general with
   | some g => if pyStrip g = "" then "" else pyStrip g ++ "\n\n"
   | none => "")
    ++ concatAll ((get_ordered_files instr_files keys).map githubEntry)

/-- Condition tested by `strip_yaml_frontmatter`: the first line of the text
strips to the `---` marker. -/
def headIsMarker (s : String) : Bool :=
  match splitlines s with
  | [] => false
  | l :: _ => pyStrip l = "---"

/-- Condition tested by `strip_header`: the first line of the text starts
with `## `. -/
def headIsHeader (s : String) : Bool :=
  match splitlines s with
  | [] => false
  | l :: _ => pyStartsWith l "## "

/-- First non-blank line of a text, the line the spec's header-strip
contract speaks about. -/
def firstNonBlankLine (s : String) : Option String :=
  (splitlines s).find? (fun l => !(isBlank l))

/-- Stems of `keys` as filenames: the identifiers the ordering function can
match. -/
def mappedKeys (keys : List String) : List String :=
  keys.map header_to_filename

/-- A fragment whose identifier is matched by the canonical section order. -/
def inMapped (keys : List String) (f : Fragment) : Bool :=
  f.stem ∈ mappedKeys keys

theorem lexLe_total : ∀ x y : List Char, lexLe x y = true ∨ lexLe y x = true
  | [], _ => Or.inl rfl
  | _ :: _, [] => Or.inr rfl
  | a :: as, b :: bs => by
    simp only [lexLe]
    rcases Nat.lt_trichotomy a.toNat b.toNat with h | h | h
    · exact Or.inl (by simp [h])
    · have h1 : ¬ a.toNat < b.toNat := by omega
      have h2 : ¬ b.toNat < a.toNat := by omega
      simpa [h1, h2] using lexLe_total as bs
    · exact Or.inr (by simp [h])

theorem lexLe_trans : ∀ x y z : List Char,
    lexLe x y = true → lexLe y z = true → lexLe x z = true
  | [], _, _, _, _ => rfl
  | _ :: _, [], _, hxy, _ => by simp [lexLe] at hxy
  | _ :: _, _ :: _, [], _, hyz => by simp [lexLe] at hyz
  | a :: as, b :: bs, c :: cs, hxy, hyz => by
    simp only [lexLe] at hxy hyz ⊢
    rcases Nat.lt_trichotomy a.toNat b.toNat with h1 | h1 | h1 <;>
      rcases Nat.lt_trichotomy b.toNat c.toNat with h2 | h2 | h2
    · simp [show a.toNat < c.toNat by omega]
    · simp [show a.toNat < c.toNat by omega]
    · simp [show ¬ b.toNat < c.toNat by omega, h2] at hyz
    · simp [show a.toNat < c.toNat by omega]
    · have ha : ¬ a.toNat < b.toNat := by omega
      have hb : ¬ b.toNat < a.toNat := by omega
      have hc : ¬ b.toNat < c.toNat := by omega
      have hd : ¬ c.toNat < b.toNat := by omega
      have he : ¬ a.toNat < c.toNat := by omega
      have hf : ¬ c.toNat < a.toNat := by omega
      simp only [ha, hb, if_false, if_neg] at hxy
      simp only [hc, hd, if_false, if_neg] at hyz
      simp only [he, hf, if_false, if_neg]
      exact lexLe_trans as bs cs hxy hyz
    · simp [show ¬ b.toNat < c.toNat by omega, h2] at hyz
    · simp [show ¬ a.toNat < b.toNat by omega, h1] at hxy
    · simp [show ¬ a.toNat < b.toNat by omega, h1] at hxy
    · simp [show ¬ a.toNat < b.toNat by omega, h1] at hxy

instance : IsTotal Fragment fragLe :=
  ⟨fun a b => lexLe_total a.fname.data b.fname.data⟩

instance : IsTrans Fragment fragLe :=
  ⟨fun a b c => lexLe_trans a.fname.data b.fname.data c.fname.data⟩

theorem strip_yaml_frontmatter_noop (s : String) (h : headIsMarker s = false) :
    strip_yaml_frontmatter s = s := by
  unfold headIsMarker at h
  unfold strip_yaml_frontmatter
  cases hs : splitlines s with
  | nil => rfl
  | cons l rest =>
    rw [hs] at h
    simp only [decide_eq_false_iff_not] at h
    simp [h]

theorem strip_header_noop (s : String) (h : headIsHeader s = false) :
    strip_header s = s := by
  unfold headIsHeader at h
  unfold strip_header
  cases hs : splitlines s with
  | nil => rfl
  | cons l rest =>
    rw [hs] at h
    have h' : pyStartsWith l "## " = false := h
    simp [h']

theorem strip_yaml_frontmatter_cons (t l : String) (ls : List String)
    (h : splitlines t = l :: ls) :
    strip_yaml_frontmatter t =
      if pyStrip l = "---" then
        match dropThroughClose ls with
        | some tail => lstripNL (joinLines tail)
        | none => t
      else t := by
  unfold strip_yaml_frontmatter
  rw [h]

theorem dropThroughClose_none (ls : List String)
    (h : ∀ x ∈ ls, ¬ pyStrip x = "---") : dropThroughClose ls = none := by
  induction ls with
  | nil => rfl
  | cons a as ih =>
    unfold dropThroughClose
    rw [if_neg (h a (List.mem_cons_self a as))]
    exact ih (fun x hx => h x (List.mem_cons_of_mem a hx))

theorem dropThroughClose_of_first_marker (ls : List String) (j : Nat) (x : String)
    (hx : ls.get? j = some x) (hmark : pyStrip x = "---")
    (hmin : ∀ y ∈ ls.take j, ¬ pyStrip y = "---") :
    dropThroughClose ls = some (ls.drop (j + 1)) := by
  induction ls generalizing j with
  | nil => simp at hx
  | cons a as ih =>
    cases j with
    | zero =>
      simp only [List.get?] at hx
      injection hx with hx
      subst hx
      unfold dropThroughClose
      rw [if_pos hmark]
      rfl
    | succ j =>
      have ha : ¬ pyStrip a = "---" :=
        hmin a (by simp [List.take])
      unfold dropThroughClose
      rw [if_neg ha]
      have := ih j hx (fun y hy => hmin y (by simp [List.take, hy]))
      rw [this]
      rfl

/-- Claim C3, counterexample: neither stripper is idempotent. Stripping the
frontmatter of a text made of four marker lines leaves two marker lines,
which a second pass strips again; stripping the header of a two-header text
exposes the second header, which a second pass removes as well. -/
theorem strippers_not_idempotent_cex :
    strip_yaml_frontmatter (strip_yaml_frontmatter "---\n---\n---\n---")
        ≠ strip_yaml_frontmatter "---\n---\n---\n---"
      ∧ strip_header (strip_header "## A\n## B") ≠ strip_header "## A\n## B" := by
  decide

/-- Claim C3, amended: each stripper returns unchanged any text whose first
line does not carry its marker; consequently applying a stripper twice
agrees with applying it once whenever the once-stripped text does not itself
begin with the marker (idempotence fails in general, as the counterexample
shows). -/
theorem strippers_noop_without_leading_marker (t : String)
    (h1 : headIsMarker (strip_yaml_frontmatter t) = false)
    (h2 : headIsHeader (strip_header t) = false) :
    strip_yaml_frontmatter (strip_yaml_frontmatter t) = strip_yaml_frontmatter t
      ∧ strip_header (strip_header t) = strip_header t :=
  ⟨strip_yaml_frontmatter_noop _ h1, strip_header_noop _ h2⟩

theorem strippers_noop_without_leading_marker_witness :
    strip_yaml_frontmatter (strip_yaml_frontmatter "---\na\n---\nBody")
        = strip_yaml_frontmatter "---\na\n---\nBody"
      ∧ strip_header (strip_header "---\na\n---\nBody")
        = strip_header "---\na\n---\nBody" :=
  strippers_noop_without_leading_marker "---\na\n---\nBody" (by decide) (by decide)

/-- Claim C4, counterexample: on a text whose first line is blank and whose
first non-blank line is the second-level header, the header stripper leaves
the text unchanged (the header line is still present), contradicting the
claim that the header of such a text is removed. -/
theorem strip_header_first_nonblank_cex :
    firstNonBlankLine "\n## A\nB" = some "## A"
      ∧ pyStartsWith "## A" "## " = true
      ∧ strip_header "\n## A\nB" = "\n## A\nB"
      ∧ firstNonBlankLine (strip_header "\n## A\nB") = some "## A"
      ∧ strip_header "\n## A\nB" ≠ "B"
      ∧ strip_header "\n## A\nB" ≠ "\nB" := by
  decide

/-- Claim C4, amended: the header stripper tests the very first line, not
the first non-blank line. For every text whose first line begins with
`## ` it removes that line and the immediately following blank lines; for
every other text (including a text whose header follows a leading blank
line) it returns the text unchanged. -/
theorem strip_header_contract_first_line (t l : String) (ls : List String)
    (h : splitlines t = l :: ls) :
    (pyStartsWith l "## " = true →
        strip_header t = joinLines (ls.dropWhile isBlank))
      ∧ (pyStartsWith l "## " = false → strip_header t = t) := by
  unfold strip_header
  rw [h]
  constructor <;> intro hh <;> simp [hh]

theorem strip_header_contract_first_line_witness :
    (pyStartsWith "## A" "## " = true →
        strip_header "## A\n\nBody" = joinLines (["", "Body"].dropWhile isBlank))
      ∧ (pyStartsWith "## A" "## " = false →
        strip_header "## A\n\nBody" = "## A\n\nBody") :=
  strip_header_contract_first_line "## A\n\nBody" "## A" ["", "Body"] (by decide)

/-- Claim C5, counterexample: on `"---\na\n---\n\nb"` the frontmatter
stripper does not return the rest of the text after the closing marker
(which is `"\nb"`): it additionally removes the leading blank line and
returns `"b"`. -/
theorem strip_frontmatter_rest_cex :
    strip_yaml_frontmatter "---\na\n---\n\nb" = "b"
      ∧ joinLines ((splitlines "---\na\n---\n\nb").drop 3) = "\nb"
      ∧ ("b" : String) ≠ "\nb" := by
  decide

/-- Claim C5, amended: marker lines are recognised up to surrounding
whitespace (the first line and the closing line need only strip to `---`),
and after discarding everything through the closing marker the stripper
additionally removes leading newline characters from the remainder; a text
whose first line does not strip to the marker is returned unchanged. -/
theorem strip_frontmatter_contract (t l x : String) (ls : List String) (j : Nat)
    (h : splitlines t = l :: ls) :
    (pyStrip l = "---" → ls.get? j = some x → pyStrip x = "---" →
        (∀ y ∈ ls.take j, ¬ pyStrip y = "---") →
        strip_yaml_frontmatter t = lstripNL (joinLines (ls.drop (j + 1))))
      ∧ (¬ pyStrip l = "---" → strip_yaml_frontmatter t = t) := by
  constructor
  · intro hm hx hxm hmin
    rw [strip_yaml_frontmatter_cons t l ls h, if_pos hm,
      dropThroughClose_of_first_marker ls j x hx hxm hmin]
  · intro hm
    rw [strip_yaml_frontmatter_cons t l ls h, if_neg hm]

theorem strip_frontmatter_contract_witness :
    (pyStrip "---" = "---" → ["a", "---", "", "b"].get? 1 = some "---" →
        pyStrip "---" = "---" →
        (∀ y ∈ ["a", "---", "", "b"].take 1, ¬ pyStrip y = "---") →
        strip_yaml_frontmatter "---\na\n---\n\nb"
          = lstripNL (joinLines (["a", "---", "", "b"].drop 2)))
      ∧ (¬ pyStrip "---" = "---" →
        strip_yaml_frontmatter "---\na\n---\n\nb" = "---\na\n---\n\nb") :=
  strip_frontmatter_contract "---\na\n---\n\nb" "---" "---" ["a", "---", "", "b"] 1
    (by decide)

/-- Claim C10, confirmed: when the first line opens a frontmatter block but
no later line closes it, the stripper returns the whole text unchanged. -/
theorem frontmatter_unterminated_unchanged (t l : String) (ls : List String)
    (h : splitlines t = l :: ls) (hm : pyStrip l = "---")
    (hn : ∀ x ∈ ls, ¬ pyStrip x = "---") :
    strip_yaml_frontmatter t = t := by
  rw [strip_yaml_frontmatter_cons t l ls h, if_pos hm, dropThroughClose_none ls hn]

theorem frontmatter_unterminated_unchanged_witness :
    strip_yaml_frontmatter "---\ntitle: x\nbody" = "---\ntitle: x\nbody" :=
  frontmatter_unterminated_unchanged "---\ntitle: x\nbody" "---" ["title: x", "body"]
    (by decide) (by decide) (by decide)

theorem dictInsert_stem_eq_key (d : Dict) (k : String) (v : Fragment)
    (hv : v.stem = k) (hd : ∀ e ∈ d, e.2.stem = e.1) :
    ∀ e ∈ dictInsert d k v, e.2.stem = e.1 := by
  intro e he
  unfold dictInsert at he
  by_cases hc : List.any d (fun e => e.1 = k) = true
  · rw [if_pos hc] at he
    rcases List.mem_map.mp he with ⟨e', he', heq⟩
    by_cases hk : e'.1 = k
    · rw [if_pos hk] at heq
      rw [← heq]
      exact hv
    · rw [if_neg hk] at heq
      rw [← heq]
      exact hd e' he'
  · rw [if_neg hc] at he
    rcases List.mem_append.mp he with h1 | h1
    · exact hd e h1
    · rw [List.mem_singleton.mp h1]
      exact hv

theorem buildDict_stem_eq_key (fs : List Fragment) :
    ∀ e ∈ buildDict fs, e.2.stem = e.1 := by
  have aux : ∀ (gs : List Fragment) (d : Dict), (∀ e ∈ d, e.2.stem = e.1) →
      ∀ e ∈ gs.foldl (fun d f => dictInsert d f.stem f) d, e.2.stem = e.1 := by
    intro gs
    induction gs with
    | nil => intro d hd; exact hd
    | cons g gs ih =>
      intro d hd
      exact ih (dictInsert d g.stem g) (dictInsert_stem_eq_key d g.stem g rfl hd)
  exact aux fs [] (by intro e he; cases he)

theorem dictGet_some_stem (d : Dict) (k : String) (f : Fragment)
    (hd : ∀ e ∈ d, e.2.stem = e.1) (h : dictGet d k = some f) : f.stem = k := by
  induction d with
  | nil => cases h
  | cons e d ih =>
    unfold dictGet at h
    by_cases hk : e.1 = k
    · rw [if_pos hk] at h
      injection h with h
      rw [← h, hd e (List.mem_cons_self e d), hk]
    · rw [if_neg hk] at h
      exact ih (fun x hx => hd x (List.mem_cons_of_mem e hx)) h

theorem dictGet_none_keys (d : Dict) (k : String) (h : dictGet d k = none) :
    ∀ e ∈ d, ¬ e.1 = k := by
  induction d with
  | nil => intro e he; cases he
  | cons a d ih =>
    unfold dictGet at h
    by_cases hk : a.1 = k
    · rw [if_pos hk] at h; cases h
    · rw [if_neg hk] at h
      intro e he
      rcases List.mem_cons.mp he with h1 | h1
      · rw [h1]; exact hk
      · exact ih h e h1

theorem dictErase_mem (d : Dict) (k : String) :
    ∀ e ∈ dictErase d k, e ∈ d ∧ ¬ e.1 = k := by
  induction d with
  | nil => intro e he; cases he
  | cons a d ih =>
    intro e he
    unfold dictErase at he
    by_cases hk : a.1 = k
    · rw [if_pos hk] at he
      rcases ih e he with ⟨h1, h2⟩
      exact ⟨List.mem_cons_of_mem a h1, h2⟩
    · rw [if_neg hk] at he
      rcases List.mem_cons.mp he with h1 | h1
      · rw [h1]; exact ⟨List.mem_cons_self a d, hk⟩
      · rcases ih e h1 with ⟨h2, h3⟩
        exact ⟨List.mem_cons_of_mem a h2, h3⟩

theorem addMatched_spec (ks : List String) (d : Dict)
    (hd : ∀ e ∈ d, e.2.stem = e.1) :
    List.Sublist ((addMatched ks d).1.map Fragment.stem) (mappedKeys ks)
      ∧ ∀ e ∈ (addMatched ks d).2, e ∈ d ∧ ¬ e.1 ∈ mappedKeys ks := by
  induction ks generalizing d with
  | nil =>
    refine ⟨List.nil_sublist _, ?_⟩
    intro e he
    exact ⟨he, by simp [mappedKeys]⟩
  | cons k ks ih =>
    unfold addMatched
    cases hg : dictGet d (header_to_filename k) with
    | some f =>
      have herase : ∀ e ∈ dictErase d (header_to_filename k), e.2.stem = e.1 :=
        fun e he => hd e (dictErase_mem d (header_to_filename k) e he).1
      rcases ih (dictErase d (header_to_filename k)) herase with ⟨h1, h2⟩
      constructor
      · have hf : f.stem = header_to_filename k :=
          dictGet_some_stem d (header_to_filename k) f hd hg
        simp only [List.map_cons, mappedKeys, List.map]
        rw [hf]
        exact List.Sublist.cons₂ _ h1
      · intro e he
        rcases h2 e he with ⟨h3, h4⟩
        rcases dictErase_mem d (header_to_filename k) e h3 with ⟨h5, h6⟩
        refine ⟨h5, ?_⟩
        simp only [mappedKeys, List.map_cons, List.mem_cons]
        rintro (h7 | h7)
        · exact h6 h7
        · exact h4 (by simpa [mappedKeys] using h7)
    | none =>
      rcases ih d hd with ⟨h1, h2⟩
      constructor
      · exact h1.trans (List.sublist_cons_self _ _)
      · intro e he
        rcases h2 e he with ⟨h3, h4⟩
        refine ⟨h3, ?_⟩
        simp only [mappedKeys, List.map_cons, List.mem_cons]
        rintro (h7 | h7)
        · exact dictGet_none_keys d (header_to_filename k) hg e h3 h7
        · exact h4 (by simpa [mappedKeys] using h7)

theorem get_ordered_files_split (files : List Fragment) (keys : List String) :
    ∃ m u, get_ordered_files files keys = m ++ u
      ∧ List.Sublist (m.map Fragment.stem) (mappedKeys keys)
      ∧ (∀ f ∈ u, ¬ f.stem ∈ mappedKeys keys)
      ∧ List.Sorted fragLe u := by
  rcases addMatched_spec keys (buildDict files) (buildDict_stem_eq_key files)
    with ⟨h1, h2⟩
  refine ⟨(addMatched keys (buildDict files)).1,
    List.insertionSort fragLe
      (List.map Prod.snd (addMatched keys (buildDict files)).2), rfl, h1, ?_, ?_⟩
  · intro f hf
    have hf2 : f ∈ List.map Prod.snd (addMatched keys (buildDict files)).2 :=
      (List.mem_insertionSort fragLe).mp hf
    rcases List.mem_map.mp hf2 with ⟨e, he, heq⟩
    rcases h2 e he with ⟨hmem, hnot⟩
    have : e.2.stem = e.1 := buildDict_stem_eq_key files e hmem
    rw [← heq, this]
    exact hnot
  · exact List.sorted_insertionSort fragLe _

theorem ordered_output_parts (files : List Fragment) (keys : List String) :
    (get_ordered_files files keys).filter (inMapped keys)
        ++ (get_ordered_files files keys).filter (fun f => !(inMapped keys f))
      = get_ordered_files files keys
    ∧ List.Sublist
        (((get_ordered_files files keys).filter (inMapped keys)).map Fragment.stem)
        (mappedKeys keys)
    ∧ List.Sorted fragLe
        ((get_ordered_files files keys).filter (fun f => !(inMapped keys f))) := by
  rcases get_ordered_files_split files keys with ⟨m, u, heq, h1, h2, h3⟩
  have hm : ∀ f ∈ m, inMapped keys f = true := by
    intro f hf
    have : f.stem ∈ mappedKeys keys := h1.subset (List.mem_map_of_mem Fragment.stem hf)
    simpa [inMapped] using this
  have hu : ∀ f ∈ u, inMapped keys f = false := by
    intro f hf
    simpa [inMapped] using h2 f hf
  have hfin : (get_ordered_files files keys).filter (inMapped keys) = m := by
    rw [heq, List.filter_append, List.filter_eq_self.mpr hm,
      List.filter_eq_nil_iff.mpr (fun a ha => by simp [hu a ha]), List.append_nil]
  have hfout : (get_ordered_files files keys).filter (fun f => !(inMapped keys f)) = u := by
    rw [heq, List.filter_append,
      List.filter_eq_nil_iff.mpr (fun a ha => by simp [hm a ha]),
      List.filter_eq_self.mpr (fun a ha => by simp [hu a ha]), List.nil_append]
  refine ⟨?_, ?_, ?_⟩
  · rw [hfin, hfout, heq]
  · rw [hfin]; exact h1
  · rw [hfout]; exact h3

/-- Claim C2, counterexample: with an empty canonical sequence both
fragments are unmatched; their stems satisfy `"a" < "a-b"`, yet the
ordering function puts `a-b.mdc` first, because it sorts by full filename
and `'-' < '.'` in code-point order. -/
theorem unmatched_sorted_by_stem_cex :
    get_ordered_files [⟨"a", ".mdc", "A"⟩, ⟨"a-b", ".mdc", "B"⟩] []
        = [⟨"a-b", ".mdc", "B"⟩, ⟨"a", ".mdc", "A"⟩]
      ∧ strLe "a" "a-b" = true ∧ ¬ ("a" : String) = "a-b" := by
  decide

/-- Claim C2, amended: the ordering function places the fragments whose
identifier is absent from the canonical sequence after all matched
fragments, and orders those absent fragments among themselves
lexicographically by their full filename (stem plus extension), which can
differ from stem order when one stem is a proper prefix of another. -/
theorem unmatched_after_matched_sorted_by_filename
    (files : List Fragment) (keys : List String) :
    get_ordered_files files keys
        = (get_ordered_files files keys).filter (inMapped keys)
          ++ (get_ordered_files files keys).filter (fun f => !(inMapped keys f))
      ∧ List.Sorted fragLe
          ((get_ordered_files files keys).filter (fun f => !(inMapped keys f))) :=
  ⟨(ordered_output_parts files keys).1.symm, (ordered_output_parts files keys).2.2⟩

/-- Claim C6, confirmed: every fragment whose identifier is matched by the
canonical ordering sequence appears in the output before every non-matching
fragment, and the sequence of matched identifiers is a subsequence of the
canonical sequence translated to filenames, i.e. the matched fragments
appear in exactly the canonical relative order. -/
theorem matched_in_canonical_order (files : List Fragment) (keys : List String) :
    get_ordered_files files keys
        = (get_ordered_files files keys).filter (inMapped keys)
          ++ (get_ordered_files files keys).filter (fun f => !(inMapped keys f))
      ∧ List.Sublist
          (((get_ordered_files files keys).filter (inMapped keys)).map Fragment.stem)
          (mappedKeys keys) :=
  ⟨(ordered_output_parts files keys).1.symm, (ordered_output_parts files keys).2.1⟩

theorem concatAll_cons (s : String) (ss : List String) :
    concatAll (s :: ss) = s ++ concatAll ss := rfl

/-- Claim C1, counterexample: the emptiness check runs before the two strip
passes, so a fragment whose content is empty only after stripping (here a
lone `## X` header) still produces a derived title line and two blank-line
separators in both modes. -/
theorem empty_after_strip_still_written_cex :
    strip_header (strip_yaml_frontmatter (pyStrip "## X")) = ""
      ∧ bundle_cursor_rules [⟨"x", ".mdc", "## X"⟩] [] = "## X\n\n\n\n"
      ∧ ¬ bundle_cursor_rules [⟨"x", ".mdc", "## X"⟩] [] = ""
      ∧ bundle_github_instructions none [⟨"x", ".md", "## X"⟩] [] = "## X\n\n\n\n"
      ∧ ¬ bundle_github_instructions none [⟨"x", ".md", "## X"⟩] [] = "" := by
  decide

/-- Claim C1, amended: the bundler omits a fragment entirely exactly when
its content is empty after trimming surrounding whitespace, before the
frontmatter and header strips; a fragment that becomes empty only after
stripping still contributes its title line and separators. -/
theorem empty_pretrim_omitted (f : Fragment) (h : pyStrip f.content = "") :
    cursorEntry f = "" ∧ githubEntry f = "" := by
  constructor <;> simp [cursorEntry, githubEntry, h]

theorem empty_pretrim_omitted_witness :
    cursorEntry ⟨"e", ".mdc", " \n "⟩ = ""
      ∧ githubEntry ⟨"e", ".mdc", " \n "⟩ = "" :=
  empty_pretrim_omitted ⟨"e", ".mdc", " \n "⟩ (by decide)

/-- Claim C7, confirmed: when the general fragment is present (in cursor
mode: the unique `.mdc` file with stem "general"; in github mode: the fixed
copilot-instructions file) and its trimmed content is non-empty, its body
is the first content written to the output, with no `## ` title line
emitted before it. -/
theorem general_fragment_first (rule_files : List Fragment) (keys : List String)
    (g : Fragment) (gh : String) (instr : List Fragment)
    (h1 : rule_files.filter (fun f => f.stem = "general") = [g])
    (h2 : ¬ pyStrip g.content = "")
    (h3 : ¬ pyStrip gh = "") :
    (∃ rest, bundle_cursor_rules rule_files keys
        = strip_header (strip_yaml_frontmatter (pyStrip g.content)) ++ ("\n\n" ++ rest))
      ∧ (∃ rest, bundle_github_instructions (some gh) instr keys
        = pyStrip gh ++ ("\n\n" ++ rest)) := by
  have hg : g ∈ rule_files.filter (fun f => f.stem = "general") := by
    rw [h1]; exact List.mem_singleton_self g
  have hg_stem : g.stem = "general" := by
    rcases List.mem_filter.mp hg with ⟨-, hp⟩
    exact of_decide_eq_true hp
  constructor
  · refine ⟨concatAll ((get_ordered_files
      (rule_files.filter (fun f => ¬ (f.stem = "general"))) keys).map cursorEntry), ?_⟩
    unfold bundle_cursor_rules
    simp only [h1, List.singleton_append, List.map_cons, concatAll_cons]
    have hcg : cursorEntry g
        = strip_header (strip_yaml_frontmatter (pyStrip g.content)) ++ "\n\n" := by
      unfold cursorEntry
      rw [if_neg h2, if_pos hg_stem]
      exact String.empty_append _
    rw [hcg, String.append_assoc]
  · refine ⟨concatAll ((get_ordered_files instr keys).map githubEntry), ?_⟩
    have hred : bundle_github_instructions (some gh) instr keys
        = (if pyStrip gh = "" then "" else pyStrip gh ++ "\n\n")
          ++ concatAll ((get_ordered_files instr keys).map githubEntry) := rfl
    rw [hred, if_neg h3, String.append_assoc]

theorem general_fragment_first_witness :
    (∃ rest, bundle_cursor_rules [⟨"general", ".mdc", "Hello"⟩] []
        = strip_header (strip_yaml_frontmatter (pyStrip "Hello")) ++ ("\n\n" ++ rest))
      ∧ (∃ rest, bundle_github_instructions (some "Hi") [] []
        = pyStrip "Hi" ++ ("\n\n" ++ rest)) :=
  general_fragment_first [⟨"general", ".mdc", "Hello"⟩] [] ⟨"general", ".mdc", "Hello"⟩
    "Hi" [] (by decide) (by decide) (by decide)

/-- Claim C8, confirmed: on the spec's concrete example (general "Hello",
two topic fragments carrying their own headers, canonical sequence
["A Topic"]) the cursor bundler produces exactly the expected output:
general body first and headerless, then A Topic, then B Topic, each body
under its derived title and followed by a blank line. -/
theorem bundle_cursor_example :
    bundle_cursor_rules
        [⟨"general", ".mdc", "Hello"⟩, ⟨"b-topic", ".mdc", "## B Topic\n\nBody B"⟩,
          ⟨"a-topic", ".mdc", "## A Topic\n\nBody A"⟩] ["A Topic"]
      = "Hello\n\n## A Topic\n\nBody A\n\n## B Topic\n\nBody B\n\n" := by
  decide

/-- Claim C9, confirmed: in github mode the general file's content is
written with only surrounding whitespace trimmed; neither the frontmatter
stripper nor the header stripper is applied to it, so the trimmed content
(frontmatter block or leading header included) appears verbatim at the very
start of the output. -/
theorem github_general_untransformed (g : String) (instr : List Fragment)
    (keys : List String) (h : ¬ pyStrip g = "") :
    bundle_github_instructions (some g) instr keys
        = (pyStrip g ++ "\n\n") ++ concatAll ((get_ordered_files instr keys).map githubEntry)
      ∧ pyStartsWith (bundle_github_instructions (some g) instr keys) (pyStrip g)
        = true := by
  have hred : bundle_github_instructions (some g) instr keys
      = (if pyStrip g = "" then "" else pyStrip g ++ "\n\n")
        ++ concatAll ((get_ordered_files instr keys).map githubEntry) := rfl
  have heq : bundle_github_instructions (some g) instr keys
      = (pyStrip g ++ "\n\n")
        ++ concatAll ((get_ordered_files instr keys).map githubEntry) := by
    rw [hred, if_neg h]
  refine ⟨heq, ?_⟩
  rw [heq]
  unfold pyStartsWith
  rw [List.isPrefixOf_iff_prefix, String.data_append, String.data_append,
    List.append_assoc]
  exact List.prefix_append _ _

theorem github_general_untransformed_witness :
    bundle_github_instructions (some "---\na: b\n---\n## H\nBody") [] []
        = (pyStrip "---\na: b\n---\n## H\nBody" ++ "\n\n") ++ concatAll []
      ∧ pyStartsWith (bundle_github_instructions (some "---\na: b\n---\n## H\nBody") [] [])
          (pyStrip "---\na: b\n---\n## H\nBody") = true := by
  have := github_general_untransformed "---\na: b\n---\n## H\nBody" [] [] (by decide)
  simpa using this
